import Mathlib

/-!
Verification of the `rustdes` line-oriented command server.

The development shallowly embeds the Rust sources:

* `src/commands/parser.rs` — argument specifications, the argument parser,
  parsed arguments, argument errors and usage-text generation;
* `src/commands/defs.rs` — command resolution (`match_command`), handler
  lookup (`get_handler_for`, whose `todo!` arms are modelled as a distinct
  panic outcome) and dispatch (`execute`);
* `src/commands/handlers/ping.rs` — the PING handler;
* `src/server/server.rs` — the connection registry, the per-connection
  session loop (`handle_client` / `handle_input`) and the acceptor
  (`start_server`), modelled as a step function over an explicit server
  state driven by accept/read events.

Rust strings are modelled by Lean `String` (a structure over `List Char`);
`str::trim`, `str::to_lowercase`, `str::split(" ")`, `Vec::join` and
`HashMap` insert/lookup/remove are given explicit executable models below.
Panics (`todo!`, `expect`, slice indexing) are modelled as explicit outcome
constructors rather than as Lean failures: a panic inside a spawned session
thread terminates only that session (and skips the cleanup code that runs
after `handle_client` returns), while a panic inside the accept loop runs on
the main thread and terminates the whole process.
-/

/-- Model of Rust `str::trim` on the character list: drop whitespace from
both ends. -/
def trimChars (l : List Char) : List Char :=
  ((l.dropWhile Char.isWhitespace).reverse.dropWhile Char.isWhitespace).reverse

/-- Model of Rust `str::trim`. -/
def strTrim (s : String) : String := String.mk (trimChars s.data)

/-- Model of Rust `str::to_lowercase` (ASCII-relevant fragment). -/
def lowerStr (s : String) : String := String.mk (s.data.map Char.toLower)

/-- Model of Rust `str::split(" ")` on a character list: split on each
occurrence of the single-space pattern.  The result is never empty; an empty
input yields one empty piece, exactly as in Rust. -/
def splitSp : List Char → List (List Char)
  | [] => [[]]
  | c :: rest =>
    if c = ' ' then
      [] :: splitSp rest
    else
      match splitSp rest with
      | [] => [[c]]
      | h :: t => (c :: h) :: t

/-- Model of Rust `input.split(" ").collect::<Vec<&str>>()`. -/
def splitSpaces (s : String) : List String := (splitSp s.data).map String.mk

/-- Model of Rust `Vec::join(sep)` / `[&str]::join(sep)`. -/
def joinSep (sep : String) : List String → String
  | [] => ""
  | [x] => x
  | x :: y :: xs => x ++ sep ++ joinSep sep (y :: xs)

/-- Argument arity, from `parser.rs` (`enum ArgumentArity`). -/
inductive ArgumentArity where
  | Single
  | Remainder
deriving DecidableEq

/-- Argument specification for one named parameter, from `parser.rs`
(`struct ArgumentDefinition`). -/
structure ArgumentDefinition where
  name : String
  description : String
  required : Bool
  arity : ArgumentArity
  default : Option (List String)
deriving DecidableEq

/-- Constructor `ArgumentDefinition::required` from `parser.rs`. -/
def ArgumentDefinition.mkRequired (name description : String) : ArgumentDefinition :=
  ⟨name, description, true, .Single, none⟩

/-- Constructor `ArgumentDefinition::optional` from `parser.rs`. -/
def ArgumentDefinition.mkOptional (name description : String) : ArgumentDefinition :=
  ⟨name, description, false, .Single, none⟩

/-- Constructor `ArgumentDefinition::optional_with_default` from `parser.rs`. -/
def ArgumentDefinition.optional_with_default (name description default : String) :
    ArgumentDefinition :=
  ⟨name, description, false, .Single, some [default]⟩

/-- Constructor `ArgumentDefinition::required_remainder` from `parser.rs`. -/
def ArgumentDefinition.required_remainder (name description : String) : ArgumentDefinition :=
  ⟨name, description, true, .Remainder, none⟩

/-- Constructor `ArgumentDefinition::optional_remainder` from `parser.rs`. -/
def ArgumentDefinition.optional_remainder (name description : String) : ArgumentDefinition :=
  ⟨name, description, false, .Remainder, none⟩

/-- Constructor `ArgumentDefinition::optional_remainder_with_default` from
`parser.rs`. -/
def ArgumentDefinition.optional_remainder_with_default (name description : String)
    (default : List String) : ArgumentDefinition :=
  ⟨name, description, false, .Remainder, some default⟩

/-- Usage token rendering, from `ArgumentDefinition::usage_token`. -/
def ArgumentDefinition.usage_token (d : ArgumentDefinition) : String :=
  let base :=
    match d.arity with
    | .Single => d.name
    | .Remainder => d.name ++ "..."
  let token := if d.required then "<" ++ base ++ ">" else "[" ++ base ++ "]"
  match d.arity, d.default with
  | .Single, some (v :: _) => token ++ "=" ++ v
  | _, _ => token

/-- Per-argument summary line, from `ArgumentDefinition::summary`. -/
def ArgumentDefinition.summary (d : ArgumentDefinition) : String :=
  let requirement := if d.required then "required" else "optional"
  let arityText :=
    match d.arity with
    | .Single => "single"
    | .Remainder => "variadic"
  let base := d.name ++ " (" ++ requirement ++ " " ++ arityText ++ "): " ++ d.description
  match d.default with
  | some df =>
    if df.isEmpty then base
    else
      let rendered :=
        match d.arity with
        | .Single => df.headD ""
        | .Remainder => joinSep " " df
      base ++ " [default: " ++ rendered ++ "]"
  | none => base

/-- Structured parse failure, from `parser.rs` (`struct ArgumentError`). -/
structure ArgumentError where
  command_name : String
  message : String
  usage : String
deriving DecidableEq

/-- Rendering `ArgumentError::pretty` (also its `Display`, hence the message
of the `io::Error` obtained through `From<ArgumentError>`). -/
def ArgumentError.pretty (e : ArgumentError) : String :=
  e.message ++ "\n" ++ e.usage

/-- Value table of a parse, modelling the Rust
`HashMap<&str, Vec<String>>` as an association list. -/
abbrev Values := List (String × List String)

/-- Model of `HashMap::insert`: replace the binding for `k` if present,
otherwise add it. -/
def insertVal (k : String) (v : List String) : Values → Values
  | [] => [(k, v)]
  | (k1, v1) :: rest => if k1 = k then (k, v) :: rest else (k1, v1) :: insertVal k v rest

/-- Model of `HashMap::get`. -/
def lookupVal (k : String) : Values → Option (List String)
  | [] => none
  | (k1, v1) :: rest => if k1 = k then some v1 else lookupVal k rest

/-- Immutable result of a successful parse, from `parser.rs`
(`struct ParsedArguments`). -/
structure ParsedArguments where
  command_name : String
  raw : List String
  order : List String
  values : Values
deriving DecidableEq

/-- Accessor `ParsedArguments::list`: the bound value sequence for a name,
empty when absent. -/
def ParsedArguments.list (a : ParsedArguments) (name : String) : List String :=
  (lookupVal name a.values).getD []

/-- The argument parser, from `parser.rs` (`struct ArgumentParser`). -/
structure ArgumentParser where
  command_name : String
  specs : List ArgumentDefinition
deriving DecidableEq

/-- Usage line, from `ArgumentParser::usage`. -/
def ArgumentParser.usage (p : ArgumentParser) : String :=
  let tokens := p.specs.map ArgumentDefinition.usage_token
  if tokens.isEmpty then "Usage: " ++ p.command_name
  else "Usage: " ++ p.command_name ++ " " ++ joinSep " " tokens

/-- Detailed usage text, from `ArgumentParser::usage_with_details`. -/
def ArgumentParser.usage_with_details (p : ArgumentParser) : String :=
  if p.specs.isEmpty then p.usage
  else
    p.usage ++ "\n" ++
      joinSep "\n" ("Arguments:" :: p.specs.map (fun d => "  " ++ d.summary))

/-- Error construction, from the private method `ArgumentParser::error`. -/
def ArgumentParser.error (p : ArgumentParser) (message : String) : ArgumentError :=
  ⟨p.command_name, message, p.usage_with_details⟩

/-- Token normalisation at the top of `ArgumentParser::parse`: trim each raw
token and drop the empty ones. -/
def normalizeTokens (args : List String) : List String :=
  (args.map strTrim).filter (fun a => !a.data.isEmpty)

/-- Shared fall-through of both arms of the binding loop in
`ArgumentParser::parse` when no token is available for the parameter: use
the default sequence if defined; otherwise record the name as missing when
the parameter is required, and bind the empty sequence. -/
def bindAbsent (d : ArgumentDefinition) (v : Values) (m : List String) :
    List String × Values × List String :=
  match d.default with
  | some df => ([], insertVal d.name df v, m)
  | none =>
    if d.required then ([], insertVal d.name [] v, m ++ [d.name])
    else ([], insertVal d.name [] v, m)

/-- One non-erroring iteration of the binding loop in
`ArgumentParser::parse`: a `Single` parameter pops the front token if
available, a `Remainder` parameter drains the whole queue if non-empty, and
both fall back to `bindAbsent` on an empty queue. -/
def bindOne (d : ArgumentDefinition) (q : List String) (v : Values) (m : List String) :
    List String × Values × List String :=
  match d.arity, q with
  | .Single, t :: q1 => (q1, insertVal d.name [t] v, m)
  | .Single, [] => bindAbsent d v m
  | .Remainder, [] => bindAbsent d v m
  | .Remainder, q => ([], insertVal d.name q v, m)

/-- The parameter-binding loop of `ArgumentParser::parse`: walk the
specifications in declaration order, threading the token queue, the value
table and the list of missing required names.  A `Remainder` parameter that
is not the final one aborts with an error (the early `return Err` inside
the `Remainder` arm of the source loop — the guard condition
`d.arity = .Remainder ∧ rest ≠ []` is exactly the source's
`index != self.specs.len() - 1` test, which the source only performs in
that arm); otherwise the loop ends with the leftover queue, the values and
the missing names. -/
def parseLoop (err : String → ArgumentError) :
    List ArgumentDefinition → List String → Values → List String →
    Except ArgumentError (List String × Values × List String)
  | [], q, v, m => .ok (q, v, m)
  | d :: rest, q, v, m =>
    if d.arity = .Remainder ∧ rest ≠ [] then
      .error (err ("Argument \x27" ++ d.name ++
        "\x27 captures the remaining input and must be the final argument"))
    else
      match bindOne d q v m with
      | (q2, v2, m2) => parseLoop err rest q2 v2 m2

/-- Binding raw tokens against the specification list, from
`ArgumentParser::parse`: normalise the tokens, run the binding loop, then
check leftover tokens first and missing required parameters second. -/
def ArgumentParser.parse (p : ArgumentParser) (args : List String) :
    Except ArgumentError ParsedArguments :=
  let raw := normalizeTokens args
  match parseLoop p.error p.specs raw [] [] with
  | .error e => .error e
  | .ok (q, vals, miss) =>
    if q ≠ [] then
      .error (p.error ("Unexpected argument(s) starting at \x27" ++ joinSep " " q ++ "\x27"))
    else if miss ≠ [] then
      .error (p.error ("Missing required argument(s): " ++ joinSep ", " miss))
    else
      .ok ⟨p.command_name, raw, p.specs.map (fun d => d.name), vals⟩

/-- Command kinds, from `defs.rs` (`enum CommandType`). -/
inductive CommandType where
  | Ping
  | Get
  | Set
deriving DecidableEq

/-- Command-name resolution, from `defs.rs` (`match_command`):
case-insensitive, whitespace-trimmed exact match; an unrecognised name
yields the unknown-command `io::Error`, modelled by its display string. -/
def match_command (input : String) : Except String CommandType :=
  let t := lowerStr (strTrim input)
  if t = "ping" then .ok .Ping
  else if t = "get" then .ok .Get
  else if t = "set" then .ok .Set
  else .error ("Unknown command: " ++ strTrim input)

/-- The PING argument specification, from `ping.rs`
(`PingHandler::parser`): one optional remainder parameter `message` with
default `["PONG"]`. -/
def pingParser : ArgumentParser :=
  ⟨"PING",
   [ArgumentDefinition.optional_remainder_with_default "message"
      "Custom response to send back to the client" ["PONG"]]⟩

/-- Execution of PING, from `PingHandler::execute`: space-join the bound
values of `message`. -/
def pingExecute (args : ParsedArguments) : Except ArgumentError String :=
  .ok (joinSep " " (args.list "message"))

/-- The default `CommandHandler::handle` from `defs.rs`, instantiated for
PING: parse the raw tokens, then execute. -/
def pingHandle (args : List String) : Except ArgumentError String :=
  match pingParser.parse args with
  | .error e => .error e
  | .ok parsed => pingExecute parsed

/-- Outcome of processing one received line on a session thread.  `ok` and
`err` are the two sides of the `io::Result<String>`; `panicked` models a
Rust panic unwinding out of the call (as raised by the `todo!` arms of
`get_handler_for` in `defs.rs`, or by an out-of-bounds index). -/
inductive POut where
  | ok (result : String)
  | err (message : String)
  | panicked (message : String)
deriving DecidableEq

/-- Dispatch, from `defs.rs` (`execute` composed with `get_handler_for`):
PING runs its handler and converts an `ArgumentError` into an `io::Error`
carrying the pretty-printed text; GET and SET hit the `todo!` arms of
`get_handler_for`, which panic before any argument is parsed. -/
def execute (cmd : CommandType) (args : List String) : POut :=
  match cmd with
  | .Ping =>
    match pingHandle args with
    | .ok r => .ok r
    | .error e => .err e.pretty
  | .Get => .panicked "not yet implemented: Get handler not implemented"
  | .Set => .panicked "not yet implemented: Set handler not implemented"

/-- Line processing, from `server.rs` (`handle_input`): split the received
text on single spaces, resolve the first piece as the command and dispatch
the rest as raw argument tokens.  The source indexes `parts[0]`, which would
panic if the split produced no pieces; that (unreachable) panic is modelled
explicitly rather than hidden. -/
def handle_input (input : String) : POut :=
  match splitSpaces input with
  | [] => .panicked "index out of bounds: the len is 0 but the index is 0"
  | p0 :: rest =>
    match match_command p0 with
    | .error e => .err e
    | .ok cmd => execute cmd rest

/-- Connection status, from `server.rs` (`enum ConnectionStatus`). -/
inductive ConnectionStatus where
  | Active
  | Disconnected
deriving DecidableEq

/-- Per-connection record, from `server.rs` (`struct ConnectionInfo`);
`SystemTime` instants are abstracted as natural numbers supplied by the
events. -/
structure ConnectionInfo where
  status : ConnectionStatus
  address : String
  connected_at : Nat
  last_activity : Nat
deriving DecidableEq

/-- The shared connection registry `HashMap<u64, ConnectionInfo>`, modelled
as an association list. -/
abbrev Registry := List (Nat × ConnectionInfo)

/-- Registry `HashMap::insert`. -/
def insertConn (id : Nat) (info : ConnectionInfo) : Registry → Registry
  | [] => [(id, info)]
  | (i, v) :: rest => if i = id then (id, info) :: rest else (i, v) :: insertConn id info rest

/-- Registry `HashMap::remove`. -/
def removeConn (id : Nat) (reg : Registry) : Registry :=
  reg.filter (fun p => p.1 ≠ id)

/-- Registry `HashMap::get`. -/
def lookupConn (id : Nat) : Registry → Option ConnectionInfo
  | [] => none
  | (i, v) :: rest => if i = id then some v else lookupConn id rest

/-- The `get_mut` + `info.status = ...` update in `handle_client` on clean
EOF. -/
def setStatus (id : Nat) (st : ConnectionStatus) (reg : Registry) : Registry :=
  reg.map (fun p => if p.1 = id then (p.1, { p.2 with status := st }) else p)

/-- The `get_mut` + `info.last_activity = SystemTime::now()` update in
`handle_client` after a served request. -/
def touchActivity (id : Nat) (now : Nat) (reg : Registry) : Registry :=
  reg.map (fun p => if p.1 = id then (p.1, { p.2 with last_activity := now }) else p)

/-- How one session thread ended: `handle_client` returned `Ok`, returned a
read `io::Error`, or panicked (in which case the cleanup block after the
call never runs). -/
inductive SessionExit where
  | ok
  | ioErr (message : String)
  | panicked (message : String)
deriving DecidableEq

/-- Status of one spawned session thread. -/
inductive SessionStatus where
  | running
  | finished (exit : SessionExit)
deriving DecidableEq

/-- Lookup in the session table. -/
def lookupSession (id : Nat) : List (Nat × SessionStatus) → Option SessionStatus
  | [] => none
  | (i, s) :: rest => if i = id then some s else lookupSession id rest

/-- Update in the session table. -/
def setSession (id : Nat) (st : SessionStatus) (ss : List (Nat × SessionStatus)) :
    List (Nat × SessionStatus) :=
  ss.map (fun p => if p.1 = id then (p.1, st) else p)

/-- Whole-server state: the shared registry, the next id the acceptor will
assign (`next_id` in `start_server`), and the spawned session threads. -/
structure ServerState where
  registry : Registry
  nextId : Nat
  sessions : List (Nat × SessionStatus)
deriving DecidableEq

/-- One blocking read observed by a session, from the `stream.read` match in
`handle_client`: clean EOF (`Ok(0)`), received data (`Ok(n)`, carrying the
decoded text), or a read failure (`Err`). -/
inductive ReadEvent where
  | eof
  | data (received : String)
  | ioError (message : String)
deriving DecidableEq

/-- One scheduler-visible event of the server: the acceptor admits a
connection, the acceptor fails to establish one (a failed `accept` or a
failed `peer_addr` lookup), or session `id` completes one read cycle. -/
inductive ServerEvent where
  | accept (addr : String) (now : Nat)
  | acceptFail (message : String)
  | readEv (id : Nat) (ev : ReadEvent) (now : Nat)
deriving DecidableEq

/-- Result of one server step: the server continues with a new state having
written the given `(connection id, response text)` pairs, or the whole
process dies (a panic on the main thread). -/
inductive StepOut where
  | next (st : ServerState) (sent : List (Nat × String))
  | processCrash (message : String)
deriving DecidableEq

/-- One step of the server, combining `start_server` and `handle_client`
from `server.rs`.

* `accept`: assign `nextId`, insert an `Active` record, spawn a running
  session (the acceptor code between `listener.incoming()` and
  `thread::spawn`).
* `acceptFail`: `stream.expect("Stream error!")` /
  `peer_addr().expect(...)` panic on the main thread, so the process dies.
* `readEv`: one iteration of the `handle_client` loop.  EOF marks the
  record `Disconnected`, the loop breaks with `Ok`, and the spawned
  closure removes the id.  A read error returns `Err` from `handle_client`
  and the closure still removes the id.  Received data goes through
  `handle_input`: an `Ok` result is sent back as is, an `Err` is sent back
  as `Error: <message>` (both with the newline appended by `util::send`)
  and the session keeps running; a panic unwinds out of `handle_client`
  and out of the closure, terminating the session with no response and —
  crucially — without the registry cleanup. -/
def serverStep (st : ServerState) (ev : ServerEvent) : StepOut :=
  match ev with
  | .accept addr now =>
    .next
      ⟨insertConn st.nextId ⟨.Active, addr, now, now⟩ st.registry,
       st.nextId + 1,
       st.sessions ++ [(st.nextId, .running)]⟩
      []
  | .acceptFail m => .processCrash m
  | .readEv id rev now =>
    match lookupSession id st.sessions with
    | some .running =>
      match rev with
      | .eof =>
        .next
          ⟨removeConn id (setStatus id .Disconnected st.registry),
           st.nextId,
           setSession id (.finished .ok) st.sessions⟩
          []
      | .ioError e =>
        .next
          ⟨removeConn id st.registry,
           st.nextId,
           setSession id (.finished (.ioErr e)) st.sessions⟩
          []
      | .data s =>
        match handle_input s with
        | .panicked m =>
          .next
            ⟨st.registry, st.nextId, setSession id (.finished (.panicked m)) st.sessions⟩
            []
        | .ok r =>
          .next
            ⟨touchActivity id now st.registry, st.nextId, st.sessions⟩
            [(id, r ++ "\n")]
        | .err e =>
          .next
            ⟨touchActivity id now st.registry, st.nextId, st.sessions⟩
            [(id, "Error: " ++ e ++ "\n")]
    | _ => .next st []

/-- Demo connection record shared by the concrete server traces below. -/
def cInfoA : ConnectionInfo := ⟨.Active, "127.0.0.1:50001", 0, 0⟩

/-- Demo server state with one active connection, id 0. -/
def demoState : ServerState := ⟨[(0, cInfoA)], 1, [(0, .running)]⟩

/-- Demo specification with two required parameters. -/
def twoReqParser : ArgumentParser :=
  ⟨"PAIR",
   [ArgumentDefinition.mkRequired "a" "first value",
    ArgumentDefinition.mkRequired "b" "second value"]⟩

/-- Demo specification with no parameters. -/
def emptySpecParser : ArgumentParser := ⟨"NOARG", []⟩

/-- Demo specification with a misplaced remainder parameter. -/
def badRemainderParser : ArgumentParser :=
  ⟨"BAD",
   [ArgumentDefinition.required_remainder "rest" "captures everything",
    ArgumentDefinition.mkRequired "x" "one more"]⟩

/-- Parameterised specification with exactly one trailing optional remainder
parameter carrying a default sequence, the shape used by the PING handler. -/
def remainderOnlyParser (cmd name desc : String) (D : List String) : ArgumentParser :=
  ⟨cmd, [ArgumentDefinition.optional_remainder_with_default name desc D]⟩

theorem lookupVal_insert_self (k : String) (v : List String) (vs : Values) :
    lookupVal k (insertVal k v vs) = some v := by
  induction vs with
  | nil => simp [insertVal, lookupVal]
  | cons p rest ih =>
    obtain ⟨k1, v1⟩ := p
    by_cases h : k1 = k
    · simp [insertVal, lookupVal, h]
    · simp [insertVal, lookupVal, h, ih]

theorem lookupVal_insert_ne (k k2 : String) (hne : k2 ≠ k) (v : List String) (vs : Values) :
    lookupVal k2 (insertVal k v vs) = lookupVal k2 vs := by
  induction vs with
  | nil => simp [insertVal, lookupVal, Ne.symm hne]
  | cons p rest ih =>
    obtain ⟨k1, v1⟩ := p
    by_cases h : k1 = k
    · subst h
      simp [insertVal, lookupVal, Ne.symm hne]
    · by_cases h2 : k1 = k2
      · simp [insertVal, lookupVal, h, h2, hne]
      · simp [insertVal, lookupVal, h, h2, ih]

theorem bindOne_spec (d : ArgumentDefinition) (q : List String) (v : Values) (m : List String) :
    ∃ q2 X, bindOne d q v m =
        (q2, insertVal d.name X v,
          if d.required && d.default.isNone && X.isEmpty then m ++ [d.name] else m)
      ∧ q2.IsSuffix q := by
  obtain ⟨name, desc, req, arity, default⟩ := d
  cases arity with
  | Single =>
    cases q with
    | cons t q1 =>
      exact ⟨q1, [t], by simp [bindOne], List.suffix_cons t q1⟩
    | nil =>
      cases default with
      | some df => exact ⟨[], df, by simp [bindOne, bindAbsent], List.suffix_refl []⟩
      | none =>
        cases req with
        | true => exact ⟨[], [], by simp [bindOne, bindAbsent], List.suffix_refl []⟩
        | false => exact ⟨[], [], by simp [bindOne, bindAbsent], List.suffix_refl []⟩
  | Remainder =>
    cases q with
    | nil =>
      cases default with
      | some df => exact ⟨[], df, by simp [bindOne, bindAbsent], List.suffix_refl []⟩
      | none =>
        cases req with
        | true => exact ⟨[], [], by simp [bindOne, bindAbsent], List.suffix_refl []⟩
        | false => exact ⟨[], [], by simp [bindOne, bindAbsent], List.suffix_refl []⟩
    | cons t q1 =>
      exact ⟨[], t :: q1, by simp [bindOne], List.nil_suffix⟩

theorem parseLoop_frame (err : String → ArgumentError) (specs : List ArgumentDefinition) :
    ∀ (q : List String) (v : Values) (m q2 : List String) (v2 : Values) (m2 : List String),
      parseLoop err specs q v m = .ok (q2, v2, m2) →
      ∀ k, k ∉ specs.map (fun d => d.name) →
        lookupVal k v2 = lookupVal k v ∧ (k ∈ m2 ↔ k ∈ m) := by
  induction specs with
  | nil =>
    intro q v m q2 v2 m2 h k _
    simp [parseLoop] at h
    obtain ⟨h1, h2, h3⟩ := h
    subst h2
    subst h3
    exact ⟨rfl, Iff.rfl⟩
  | cons d rest ih =>
    intro q v m q2 v2 m2 h k hk
    rw [List.map_cons, List.mem_cons] at hk
    push_neg at hk
    by_cases hc : d.arity = .Remainder ∧ rest ≠ []
    · simp [parseLoop, hc] at h
    · obtain ⟨q1, X, hb, _⟩ := bindOne_spec d q v m
      rw [parseLoop, if_neg hc, hb] at h
      obtain ⟨hv, hm⟩ := ih _ _ _ _ _ _ h k hk.2
      refine ⟨by rw [hv, lookupVal_insert_ne _ _ hk.1], ?_⟩
      rw [hm]
      by_cases hcond : (d.required && d.default.isNone && X.isEmpty) = true
      · simp [hcond, List.mem_append, hk.1]
      · simp [hcond]

theorem parseLoop_suffix (err : String → ArgumentError) (specs : List ArgumentDefinition) :
    ∀ (q : List String) (v : Values) (m q2 : List String) (v2 : Values) (m2 : List String),
      parseLoop err specs q v m = .ok (q2, v2, m2) → q2.IsSuffix q := by
  induction specs with
  | nil =>
    intro q v m q2 v2 m2 h
    simp [parseLoop] at h
    obtain ⟨h1, _, _⟩ := h
    subst h1
    exact List.suffix_refl q
  | cons d rest ih =>
    intro q v m q2 v2 m2 h
    by_cases hc : d.arity = .Remainder ∧ rest ≠ []
    · simp [parseLoop, hc] at h
    · obtain ⟨q1, X, hb, hsuf⟩ := bindOne_spec d q v m
      rw [parseLoop, if_neg hc, hb] at h
      exact (ih _ _ _ _ _ _ h).trans hsuf

theorem parseLoop_missing_sublist (err : String → ArgumentError)
    (specs : List ArgumentDefinition) :
    ∀ (q : List String) (v : Values) (m q2 : List String) (v2 : Values) (m2 : List String),
      parseLoop err specs q v m = .ok (q2, v2, m2) →
      ∃ ex, m2 = m ++ ex ∧
        ex.Sublist ((specs.filter fun d => d.required).map fun d => d.name) := by
  induction specs with
  | nil =>
    intro q v m q2 v2 m2 h
    simp [parseLoop] at h
    obtain ⟨_, _, h3⟩ := h
    exact ⟨[], by simp [h3], List.nil_sublist _⟩
  | cons d rest ih =>
    intro q v m q2 v2 m2 h
    by_cases hc : d.arity = .Remainder ∧ rest ≠ []
    · simp [parseLoop, hc] at h
    · obtain ⟨q1, X, hb, _⟩ := bindOne_spec d q v m
      rw [parseLoop, if_neg hc, hb] at h
      obtain ⟨ex, hex, hsub⟩ := ih _ _ _ _ _ _ h
      by_cases hcond : (d.required && d.default.isNone && X.isEmpty) = true
      · have hreq : d.required = true := by
          have h2 := hcond
          simp only [Bool.and_eq_true] at h2
          exact h2.1.1
        refine ⟨d.name :: ex, ?_, ?_⟩
        · rw [hex]
          simp [hcond]
        · rw [List.filter_cons_of_pos hreq, List.map_cons]
          exact hsub.cons₂ d.name
      · refine ⟨ex, by rw [hex]; simp [hcond], ?_⟩
        by_cases hreq : d.required = true
        · rw [List.filter_cons_of_pos hreq, List.map_cons]
          exact hsub.cons d.name
        · rw [List.filter_cons_of_neg (by simpa using hreq)]
          exact hsub

theorem parseLoop_missing_iff (err : String → ArgumentError) (specs : List ArgumentDefinition) :
    ∀ (q : List String) (v : Values) (m q2 : List String) (v2 : Values) (m2 : List String),
      (specs.map (fun d => d.name)).Nodup →
      (∀ d ∈ specs, d.name ∉ m) →
      parseLoop err specs q v m = .ok (q2, v2, m2) →
      ∀ d ∈ specs,
        (d.name ∈ m2 ↔
          (d.required = true ∧ d.default = none ∧ lookupVal d.name v2 = some [])) := by
  induction specs with
  | nil =>
    intro q v m q2 v2 m2 _ _ _ d hd
    exact absurd hd (List.not_mem_nil d)
  | cons c rest ih =>
    intro q v m q2 v2 m2 hnd hm h d hd
    rw [List.map_cons, List.nodup_cons] at hnd
    by_cases hc : c.arity = .Remainder ∧ rest ≠ []
    · simp [parseLoop, hc] at h
    · obtain ⟨q1, X, hb, _⟩ := bindOne_spec c q v m
      rw [parseLoop, if_neg hc, hb] at h
      rcases List.mem_cons.mp hd with heq | hdr
      · subst heq
        have hframe := parseLoop_frame err rest _ _ _ _ _ _ h d.name hnd.1
        have hlook : lookupVal d.name v2 = some X := by
          rw [hframe.1, lookupVal_insert_self]
        have hmem := hframe.2
        by_cases hcond : (d.required && d.default.isNone && X.isEmpty) = true
        · have h3 := hcond
          simp only [Bool.and_eq_true] at h3
          have hXnil : X = [] := by simpa using h3.2
          have hdefn : d.default = none := by simpa using h3.1.2
          constructor
          · intro _
            exact ⟨h3.1.1, hdefn, by rw [hlook, hXnil]⟩
          · intro _
            rw [hmem]
            simp [hcond]
        · have hnotm : d.name ∉ m := hm d (List.mem_cons_self d rest)
          constructor
          · intro hin
            rw [hmem] at hin
            simp only [hcond, if_false, ite_false] at hin
            exact absurd hin hnotm
          · rintro ⟨hreq, hdef, hlk⟩
            rw [hlook] at hlk
            have hX : X = [] := Option.some.inj hlk
            refine absurd ?_ hcond
            simp [hreq, hdef, hX]
      · refine ih _ _ _ _ _ _ hnd.2 ?_ h d hdr
        intro e he
        have hne : e.name ≠ c.name := fun hh =>
          hnd.1 (hh ▸ List.mem_map_of_mem (fun d => d.name) he)
        have hnm : e.name ∉ m := hm e (List.mem_cons_of_mem c he)
        by_cases hcond : (c.required && c.default.isNone && X.isEmpty) = true
        · simp [hcond, List.mem_append, hne, hnm]
        · simp [hcond, hnm]

theorem parseLoop_remainder_notlast (err : String → ArgumentError)
    (specs : List ArgumentDefinition) :
    ∀ (q : List String) (v : Values) (m : List String),
      (∃ pre d post, specs = pre ++ d :: post ∧ d.arity = .Remainder ∧ post ≠ []) →
      ∃ pre0 d0 post0, specs = pre0 ++ d0 :: post0 ∧ d0.arity = .Remainder ∧ post0 ≠ [] ∧
        parseLoop err specs q v m = .error (err ("Argument \x27" ++ d0.name ++
          "\x27 captures the remaining input and must be the final argument")) := by
  induction specs with
  | nil =>
    intro q v m hex
    obtain ⟨pre, d, post, hs, _, _⟩ := hex
    exact absurd hs.symm (by simp)
  | cons c rest ih =>
    intro q v m hex
    by_cases hc : c.arity = .Remainder ∧ rest ≠ []
    · exact ⟨[], c, rest, rfl, hc.1, hc.2, by rw [parseLoop, if_pos hc]⟩
    · obtain ⟨pre, d, post, hs, hd, hpost⟩ := hex
      cases pre with
      | nil =>
        rw [List.nil_append] at hs
        obtain ⟨hcd, hrest⟩ := List.cons.inj hs
        exact absurd ⟨hcd ▸ hd, hrest ▸ hpost⟩ hc
      | cons p pre1 =>
        rw [List.cons_append] at hs
        obtain ⟨hcp, hrest⟩ := List.cons.inj hs
        obtain ⟨q1, X, hb, _⟩ := bindOne_spec c q v m
        obtain ⟨pre0, d0, post0, hr, hd0, hp0, herr⟩ :=
          ih q1 (insertVal c.name X v)
            (if c.required && c.default.isNone && X.isEmpty then m ++ [c.name] else m)
            ⟨pre1, d, post, hrest, hd, hpost⟩
        refine ⟨c :: pre0, d0, post0, by rw [hr, List.cons_append], hd0, hp0, ?_⟩
        rw [parseLoop, if_neg hc, hb]
        exact herr

theorem string_nonempty_data (t : String) (h : t ≠ "") : (!t.data.isEmpty) = true := by
  cases t with
  | mk d =>
    cases d with
    | nil => exact absurd rfl h
    | cons c cs => rfl

theorem normalizeTokens_clean (ts : List String) (h : ∀ t ∈ ts, strTrim t = t ∧ t ≠ "") :
    normalizeTokens ts = ts := by
  unfold normalizeTokens
  have h1 : ts.map strTrim = ts := by
    have h2 : ts.map strTrim = ts.map id := List.map_congr_left fun t ht => (h t ht).1
    rw [h2, List.map_id]
  rw [h1]
  exact List.filter_eq_self.mpr fun t ht => string_nonempty_data t (h t ht).2

theorem splitSp_ne_nil (l : List Char) : splitSp l ≠ [] := by
  induction l with
  | nil => simp [splitSp]
  | cons c rest ih =>
    unfold splitSp
    by_cases hc : c = ' '
    · simp [hc]
    · cases hs : splitSp rest with
      | nil => exact absurd hs ih
      | cons h t => simp [hc, hs]

theorem splitSp_all_space (l : List Char) (h : ∀ c ∈ l, c = ' ') :
    splitSp l = List.replicate (l.length + 1) [] := by
  induction l with
  | nil => rfl
  | cons c rest ih =>
    have hc : c = ' ' := h c (List.mem_cons_self c rest)
    have hr := ih fun x hx => h x (List.mem_cons_of_mem c hx)
    simp [splitSp, hc, hr, List.replicate_succ]

theorem splitSpaces_all_space (s : String) (h : ∀ c ∈ s.data, c = ' ') :
    splitSpaces s = "" :: List.replicate s.data.length "" := by
  unfold splitSpaces
  rw [splitSp_all_space s.data h]
  simp [List.replicate_succ, List.map_replicate]

/-- C6: whenever the binding loop ends with no unconsumed tokens and a
non-empty missing list, `ArgumentParser::parse` fails with one single
"Missing required argument(s)" error whose message comma-joins the whole
missing list; the missing list is a sublist of the required parameter names
in declaration order, and (for distinct parameter names) it contains exactly
the names of those required, default-free parameters that were left bound to
the empty sequence — i.e. all of the missing required parameters, not just
the first. -/
theorem parse_missing_required_all (p : ArgumentParser) (args : List String)
    (vals : Values) (miss : List String)
    (hnd : (p.specs.map (fun d => d.name)).Nodup)
    (hloop : parseLoop p.error p.specs (normalizeTokens args) [] [] = .ok ([], vals, miss))
    (hm : miss ≠ []) :
    p.parse args
      = .error (p.error ("Missing required argument(s): " ++ joinSep ", " miss))
    ∧ miss.Sublist ((p.specs.filter fun d => d.required).map fun d => d.name)
    ∧ ∀ d ∈ p.specs,
        (d.name ∈ miss ↔
          (d.required = true ∧ d.default = none ∧ lookupVal d.name vals = some [])) := by
  refine ⟨by simp [ArgumentParser.parse, hloop, hm], ?_, ?_⟩
  · obtain ⟨ex, hex, hsub⟩ := parseLoop_missing_sublist p.error p.specs _ _ _ _ _ _ hloop
    rw [List.nil_append] at hex
    rw [hex]
    exact hsub
  · exact parseLoop_missing_iff p.error p.specs _ _ _ _ _ _ hnd
      (fun d _ => List.not_mem_nil d.name) hloop

/-- C6 witness: a specification with two required parameters and no input
names both, comma-joined, in declaration order. -/
theorem parse_missing_required_all_witness :
    twoReqParser.parse []
      = .error (twoReqParser.error "Missing required argument(s): a, b") :=
  (parse_missing_required_all twoReqParser [] [("a", []), ("b", [])] ["a", "b"]
    (by decide) rfl (by decide)).1

/-- C7: whenever the binding loop ends with a non-empty leftover queue,
`ArgumentParser::parse` fails with the "Unexpected argument(s)" error whose
message space-joins the first leftover token and everything after it (the
leftover queue is a suffix of the normalised input).  The conclusion holds
for every value of the missing list, which is quantified without constraint:
the leftover check is performed first and short-circuits the
missing-required-argument check. -/
theorem parse_unexpected_leftovers (p : ArgumentParser) (args : List String)
    (q : List String) (vals : Values) (miss : List String)
    (hloop : parseLoop p.error p.specs (normalizeTokens args) [] [] = .ok (q, vals, miss))
    (hq : q ≠ []) :
    p.parse args
      = .error (p.error ("Unexpected argument(s) starting at \x27" ++ joinSep " " q ++ "\x27"))
    ∧ q.IsSuffix (normalizeTokens args) :=
  ⟨by simp [ArgumentParser.parse, hloop, hq],
   parseLoop_suffix p.error p.specs _ _ _ _ _ _ hloop⟩

/-- C7 witness: two surplus tokens against an empty specification are both
named, space-joined, starting at the first. -/
theorem parse_unexpected_leftovers_witness :
    emptySpecParser.parse ["x", "y"]
      = .error (emptySpecParser.error "Unexpected argument(s) starting at \x27x y\x27")
    ∧ List.IsSuffix ["x", "y"] (normalizeTokens ["x", "y"]) :=
  ⟨(parse_unexpected_leftovers emptySpecParser ["x", "y"] ["x", "y"] [] [] rfl
      (by decide)).1,
   (parse_unexpected_leftovers emptySpecParser ["x", "y"] ["x", "y"] [] [] rfl
      (by decide)).2⟩

/-- C8: for every specification containing a Remainder-arity parameter that
is not the last declared parameter, every parse attempt fails with the
Argument Error naming the (first) offending parameter — it never returns a
ParsedArguments value, partial or otherwise. -/
theorem parse_remainder_not_last (p : ArgumentParser) (args : List String)
    (pre : List ArgumentDefinition) (d : ArgumentDefinition)
    (post : List ArgumentDefinition)
    (hspec : p.specs = pre ++ d :: post) (hd : d.arity = .Remainder)
    (hpost : post ≠ []) :
    ∃ d0 pre0 post0, p.specs = pre0 ++ d0 :: post0 ∧ d0.arity = .Remainder ∧ post0 ≠ [] ∧
      p.parse args = .error (p.error ("Argument \x27" ++ d0.name ++
        "\x27 captures the remaining input and must be the final argument")) := by
  obtain ⟨pre0, d0, post0, hr, hd0, hp0, herr⟩ :=
    parseLoop_remainder_notlast p.error p.specs (normalizeTokens args) [] []
      ⟨pre, d, post, hspec, hd, hpost⟩
  exact ⟨d0, pre0, post0, hr, hd0, hp0, by simp [ArgumentParser.parse, herr]⟩

/-- C8 witness: a remainder parameter followed by another parameter is
rejected on a concrete parse attempt, naming the offender. -/
theorem parse_remainder_not_last_witness :
    ∃ d0 pre0 post0,
      badRemainderParser.specs = pre0 ++ d0 :: post0 ∧ d0.arity = .Remainder ∧ post0 ≠ [] ∧
      badRemainderParser.parse ["q"] = .error (badRemainderParser.error ("Argument \x27" ++
        d0.name ++ "\x27 captures the remaining input and must be the final argument")) :=
  parse_remainder_not_last badRemainderParser ["q"] []
    (ArgumentDefinition.required_remainder "rest" "captures everything")
    [ArgumentDefinition.mkRequired "x" "one more"] rfl rfl (by decide)

/-- C9: a specification consisting of a single trailing optional Remainder
parameter with default sequence D binds exactly D when the normalised token
list is empty, and binds exactly the given tokens, never merged with D, when
they are non-empty (stated for tokens already in normal form, i.e. trimmed
and non-empty, as produced by splitting a command line). -/
theorem parse_remainder_default (cmd name desc : String) (D : List String)
    (args : List String) :
    (normalizeTokens args = [] →
      ∃ pa, (remainderOnlyParser cmd name desc D).parse args = .ok pa ∧ pa.list name = D)
    ∧ (args ≠ [] → (∀ t ∈ args, strTrim t = t ∧ t ≠ "") →
      ∃ pa, (remainderOnlyParser cmd name desc D).parse args = .ok pa ∧
        pa.list name = args) := by
  constructor
  · intro h
    refine ⟨⟨cmd, [], [name], [(name, D)]⟩, ?_, ?_⟩
    · simp [ArgumentParser.parse, h, parseLoop, bindOne, bindAbsent, insertVal,
        remainderOnlyParser, ArgumentDefinition.optional_remainder_with_default]
    · simp [ParsedArguments.list, lookupVal]
  · intro hne hclean
    have hn : normalizeTokens args = args := normalizeTokens_clean args hclean
    cases args with
    | nil => exact absurd rfl hne
    | cons t ts =>
      refine ⟨⟨cmd, t :: ts, [name], [(name, t :: ts)]⟩, ?_, ?_⟩
      · simp [ArgumentParser.parse, hn, parseLoop, bindOne, insertVal,
          remainderOnlyParser, ArgumentDefinition.optional_remainder_with_default]
      · simp [ParsedArguments.list, lookupVal]

/-- C9 witness: with default `["PONG"]`, zero tokens bind `["PONG"]` and
tokens `["a", "b"]` bind exactly `["a", "b"]`. -/
theorem parse_remainder_default_witness :
    (∃ pa, (remainderOnlyParser "ECHO" "m" "the message" ["PONG"]).parse [] = .ok pa ∧
      pa.list "m" = ["PONG"])
    ∧ (∃ pa, (remainderOnlyParser "ECHO" "m" "the message" ["PONG"]).parse ["a", "b"]
        = .ok pa ∧ pa.list "m" = ["a", "b"]) :=
  ⟨(parse_remainder_default "ECHO" "m" "the message" ["PONG"] []).1 rfl,
   (parse_remainder_default "ECHO" "m" "the message" ["PONG"] ["a", "b"]).2
     (by decide) (by decide)⟩

/-- C3: PING with no argument tokens returns "PONG" (the default); with
normal-form tokens t1..tn it returns exactly those tokens joined by single
spaces; and the command name resolves case-insensitively, so "ping",
"PING" and "PiNg" all resolve to the PING handler. -/
theorem ping_behavior :
    pingHandle [] = .ok "PONG"
    ∧ (∀ ts : List String, ts ≠ [] → (∀ t ∈ ts, strTrim t = t ∧ t ≠ "") →
        pingHandle ts = .ok (joinSep " " ts))
    ∧ match_command "ping" = .ok .Ping
    ∧ match_command "PING" = .ok .Ping
    ∧ match_command "PiNg" = .ok .Ping := by
  refine ⟨rfl, ?_, rfl, rfl, rfl⟩
  intro ts hne hclean
  have hn : normalizeTokens ts = ts := normalizeTokens_clean ts hclean
  cases ts with
  | nil => exact absurd rfl hne
  | cons t ts1 =>
    simp [pingHandle, ArgumentParser.parse, hn, parseLoop, bindOne, insertVal,
      pingParser, ArgumentDefinition.optional_remainder_with_default,
      pingExecute, ParsedArguments.list, lookupVal]

/-- C3 witness: PING with tokens "hello" and "world" answers
"hello world". -/
theorem ping_behavior_witness :
    (["hello", "world"] : List String) ≠ []
    ∧ pingHandle ["hello", "world"] = .ok "hello world" :=
  ⟨by decide, ping_behavior.2.1 ["hello", "world"] (by decide) (by decide)⟩

/-- C2: whenever processing a received line yields an error (unknown
command, argument validation failure — any `Err` from `handle_input`), the
running session sends back exactly one response line `Error: <message>`
(with the newline appended by `util::send`), the session table is
unchanged, the session is still running (the connection stays open for
subsequent commands), the registry is only touched for last-activity, and
the step is a normal continuation — neither the session nor the process
crashes. -/
theorem session_error_recovery (st : ServerState) (id now : Nat) (s e : String)
    (hrun : lookupSession id st.sessions = some .running)
    (herr : handle_input s = .err e) :
    ∃ st2, serverStep st (.readEv id (.data s) now)
        = .next st2 [(id, "Error: " ++ e ++ "\n")]
      ∧ st2.sessions = st.sessions
      ∧ lookupSession id st2.sessions = some .running
      ∧ st2.registry = touchActivity id now st.registry :=
  ⟨⟨touchActivity id now st.registry, st.nextId, st.sessions⟩,
   by simp [serverStep, hrun, herr], rfl, hrun, rfl⟩

/-- C2 witness: the unknown command "FOO" on a live connection produces the
response "Error: Unknown command: FOO" and leaves the session running. -/
theorem session_error_recovery_witness :
    ∃ st2, serverStep demoState (.readEv 0 (.data "FOO") 7)
        = .next st2 [(0, "Error: Unknown command: FOO\n")]
      ∧ st2.sessions = demoState.sessions
      ∧ lookupSession 0 st2.sessions = some .running
      ∧ st2.registry = touchActivity 0 7 demoState.registry :=
  session_error_recovery demoState 0 7 "FOO" "Unknown command: FOO" rfl rfl

/-- C10: splitting a received line on spaces always yields at least one
(possibly empty) piece, so the `parts[0]` index in `handle_input` cannot
panic; and a line that is empty or consists only of space characters
resolves to the unknown-command error with an empty trimmed name, producing
the client response "Error: Unknown command: " rather than being silently
ignored. -/
theorem blank_line_unknown_command (s : String) :
    splitSpaces s ≠ []
    ∧ ((∀ c ∈ s.data, c = ' ') → handle_input s = .err "Unknown command: ") := by
  constructor
  · unfold splitSpaces
    intro hcon
    exact splitSp_ne_nil s.data (by simpa using hcon)
  · intro h
    unfold handle_input
    rw [splitSpaces_all_space s h]
    rfl

/-- C10 witness: the all-space line " " yields the unknown-command error
with empty command name. -/
theorem blank_line_unknown_command_witness :
    splitSpaces " " ≠ [] ∧ handle_input " " = .err "Unknown command: " :=
  ⟨(blank_line_unknown_command " ").1,
   (blank_line_unknown_command " ").2 (by decide)⟩

/-- C1 (code bug): dispatching the recognized commands GET and SET hits the
`todo!` arms of `get_handler_for`, which is a deterministic panic with a
fixed message — distinct by construction from the unknown-command error
(GET and SET resolve successfully in `match_command`) and from any parser
error, and never a success or a silent no-op.  However, the fault is NOT
isolated to the single request as the claim demands: on a live connection
the panic unwinds out of `handle_client`, the session is terminated with no
response sent, and the registry entry for the connection is left behind
(the cleanup block after `handle_client` is skipped).  The process itself
and unrelated sessions survive. -/
theorem unimplemented_command_panics :
    execute .Get ["x"] = .panicked "not yet implemented: Get handler not implemented"
    ∧ execute .Set ["k", "v"] = .panicked "not yet implemented: Set handler not implemented"
    ∧ match_command "GET" = .ok .Get
    ∧ match_command "SET" = .ok .Set
    ∧ handle_input "GET x" = .panicked "not yet implemented: Get handler not implemented"
    ∧ serverStep demoState (.readEv 0 (.data "GET x") 3)
        = .next ⟨[(0, cInfoA)], 1,
            [(0, .finished (.panicked "not yet implemented: Get handler not implemented"))]⟩
            [] :=
  ⟨rfl, rfl, rfl, rfl, rfl, rfl⟩

/-- C4 (code bug): a concrete trace refuting the registry invariant.  After
accepting connection 0 and then feeding its session the line "GET", the
session thread has terminated (by panic, one of the possible exit paths),
yet id 0 is still present in the registry: the cleanup `conns.remove(&id)`
in `start_server` runs only after `handle_client` returns and is skipped
when the `todo!` panic unwinds, so the id is permanently leaked. -/
theorem registry_leak_after_panic :
    serverStep ⟨[], 0, []⟩ (.accept "127.0.0.1:50001" 0) = .next demoState []
    ∧ serverStep demoState (.readEv 0 (.data "GET") 1)
        = .next ⟨[(0, cInfoA)], 1,
            [(0, .finished (.panicked "not yet implemented: Get handler not implemented"))]⟩
            []
    ∧ lookupSession 0
        [(0, SessionStatus.finished
          (.panicked "not yet implemented: Get handler not implemented"))]
        = some (.finished (.panicked "not yet implemented: Get handler not implemented"))
    ∧ lookupConn 0 [(0, cInfoA)] = some cInfoA :=
  ⟨rfl, rfl, rfl, rfl⟩

/-- C5 (code bug): a failure establishing one connection — `incoming()`
yielding an error or `peer_addr()` failing — goes through
`expect("Stream error!")` / `expect("Error with the peer address")` in
`start_server`.  These run on the main thread, so the panic terminates the
whole process: the accept loop does not continue and no subsequent
connection is accepted, contrary to the claim. -/
theorem accept_failure_crashes_process (st : ServerState) (m : String) :
    serverStep st (.acceptFail m) = .processCrash m := rfl
